import Mathlib

/-!
A shallow embedding of `code-collector.py` and proofs about it.

The program walks a directory tree, prunes ignored folders, filters files by
glob patterns, reads each remaining file with a UTF-8 → latin-1 decoding
fallback, and appends a delimited record per file to an output stream while
counting collected files.

Python string primitives (`str.strip`, `str.lower`, `str.startswith`,
`str.endswith`) are modelled over the character list of a `String`
(ASCII-faithful; the claims only involve ASCII data).  Python `set` values
are modelled as duplicate-free-by-insertion lists (`pySetAdd`), whose
observable behaviour is membership.
-/

namespace CodeCollector

/-- Python `str.lower` on one character (ASCII range, as in CPython for ASCII). -/
def pyCharLower (c : Char) : Char :=
  if 65 ≤ c.toNat ∧ c.toNat ≤ 90 then Char.ofNat (c.toNat + 32) else c

/-- Python `str.lower` (ASCII-faithful model). -/
def pyLower (s : String) : String := ⟨s.data.map pyCharLower⟩

/-- Whitespace stripped by Python `str.strip()` (ASCII whitespace). -/
def isPySpace (c : Char) : Bool :=
  c = ' ' ∨ c = '\t' ∨ c = '\n' ∨ c = '\r' ∨ c = '\x0b' ∨ c = '\x0c'

/-- Python `str.strip()`. -/
def pyStrip (s : String) : String :=
  ⟨((s.data.dropWhile isPySpace).reverse.dropWhile isPySpace).reverse⟩

/-- Python `str.startswith`. -/
def pyStartsWith (s pre : String) : Bool := pre.data.isPrefixOf s.data

/-- Python `str.endswith`. -/
def pyEndsWith (s suf : String) : Bool := suf.data.isSuffixOf s.data

/-- Python `set.add`: insert an element unless already present. -/
def pySetAdd (s : List String) (x : String) : List String :=
  if x ∈ s then s else x :: s

/-- The set `DEFAULT_IGNORED_FOLDERS` from the source, in listing order. -/
def DEFAULT_IGNORED_FOLDERS : List String :=
  ["node_modules", "build", "dist", "public", "static", "vendor", "venv",
   ".venv", "env", ".env", "__pycache__", ".git", ".svn", ".hg", ".vscode",
   ".idea", "target", "out", "bin", "obj", "logs", "tmp", "temp", "coverage"]

/-- The set `DEFAULT_IGNORED_PATTERNS` from the source, in listing order. -/
def DEFAULT_IGNORED_PATTERNS : List String :=
  ["*.config.js", "*.config.ts",
   "*.jpg", "*.jpeg", "*.png", "*.gif", "*.bmp", "*.svg", "*.tif", "*.tiff",
   "*.mp4", "*.mkv", "*.avi", "*.mov", "*.wmv", "*.flv",
   "*.mp3", "*.wav", "*.ogg", "*.flac", "*.aac",
   "*.webp", "*.ico",
   "*.zip", "*.tar", "*.gz", "*.bz2", "*.rar", "*.7z",
   "*.whl",
   "*.json", "*.yaml", "*.yml", "*.toml", "*.ini", "*.cfg", ".conf",
   "*.xml", "*.csv", "*.tsv",
   "*.lock", "yarn.lock", "package-lock.json", "composer.lock", "poetry.lock",
   ".gitignore", ".gitattributes", ".gitmodules",
   ".env", ".env.example", ".env.*",
   ".prettierrc", ".prettierignore",
   "*.pyc", "*.pyo",
   "*.class", "*.jar",
   "*.o", "*.so", "*.dll", "*.a", "*.lib",
   "*.exe", "*.app", "*.dmg", "*.pkg",
   "*.pdf", "*.doc", "*.docx", "*.xls", "*.xlsx", "*.ppt", ".pptx",
   "*.odt", "*.ods", "*.odp",
   "*.wasm",
   "*.db", "*.sqlite", "*.sqlite3", "*.sql",
   "*.log",
   "*.tmp", "*.temp",
   "*.bak", "*.swp", "*.swo", "*~",
   "*.md",
   "*.markdown",
   "*.ipynb",
   "*.otf",
   "*.d.ts"]

/-- The active section of the config parser (`current_section` in the source;
`none` models Python `None`). -/
inductive Sect where
  | folders
  | patterns
deriving DecidableEq, Repr

/-- The line loop of `load_ignore_config` (source lines 96-120): strip the
line, skip blanks and `#` comments, recognise `[folders]` / `[patterns]`
headers case-insensitively, reset the section on any other `[...]` line, and
otherwise add the line to the set selected by the active section (lower-cased
for patterns).  Lines before any header fall through and are dropped. -/
def parseLines : List String → Option Sect → List String → List String →
    (List String × List String)
  | [], _, fs, ps => (fs, ps)
  | l :: rest, sec, fs, ps =>
    let line := pyStrip l
    if line = "" ∨ pyStartsWith line "#" then
      parseLines rest sec fs ps
    else if pyLower line = "[folders]" then
      parseLines rest (some .folders) fs ps
    else if pyLower line = "[patterns]" then
      parseLines rest (some .patterns) fs ps
    else if pyStartsWith line "[" ∧ pyEndsWith line "]" then
      parseLines rest none fs ps
    else if sec = some .folders then
      parseLines rest sec (pySetAdd fs line) ps
    else if sec = some .patterns then
      parseLines rest sec fs (pySetAdd ps (pyLower line))
    else
      parseLines rest sec fs ps

/-- Environment model of the attempt to read the config file as UTF-8 text:
the file may be absent (`os.path.exists` false), read fully, raise an
`IOError` after some prefix of its lines, or raise a `UnicodeDecodeError`
after some prefix of its lines (text-mode decoding is performed lazily during
line iteration). -/
inductive ConfigFile where
  | absent
  | readOk (lines : List String)
  | readIOError (seen : List String) (msg : String)
  | readDecodeError (seen : List String) (msg : String)
deriving DecidableEq, Repr

/-- The function `load_ignore_config` (source lines 83-128).  Starts from a copy of the
default folder set and the lower-cased default pattern set; returns them
unchanged when the file is absent; parses the lines on a successful read;
reverts to the defaults when the read raises `IOError` (the sole `except`
clause); and propagates a `UnicodeDecodeError` to the caller, since
`UnicodeDecodeError` is a `ValueError`, not an `IOError`.  The uncaught
exception is modelled as `Except.error`. -/
def load_ignore_config (file : ConfigFile)
    (default_folders default_patterns : List String) :
    Except String (List String × List String) :=
  match file with
  | .absent => .ok (default_folders, default_patterns.map pyLower)
  | .readOk lines =>
      .ok (parseLines lines none default_folders (default_patterns.map pyLower))
  | .readIOError _ _ => .ok (default_folders, default_patterns.map pyLower)
  | .readDecodeError _ msg => .error msg

/-- Membership of a character in a glob character class body, with `a-b`
ranges as in the regex classes produced by `fnmatch.translate` (a `-` with no
following character is literal). -/
def inClass : List Char → Char → Bool
  | a :: '-' :: b :: rest, c => (a ≤ c ∧ c ≤ b) || inClass rest c
  | a :: rest, c => (a = c) || inClass rest c
  | [], _ => false

/-- Scan for the first `]`, returning the characters before it and the
remainder after it; `none` when there is no `]`. -/
def splitOnRB : List Char → Option (List Char × List Char)
  | [] => none
  | ']' :: rest => some ([], rest)
  | c :: rest => (splitOnRB rest).map (fun p => (c :: p.1, p.2))

/-- Parse a glob character class after an opening `[`, following
`fnmatch.translate`: an optional leading `!` negates; a `]` immediately after
(or after the `!`) is a literal member of the class; the class runs to the
next `]`.  Returns `(negated, body, rest)` or `none` when the class never
closes (then the `[` is a literal). -/
def parseCl (ps : List Char) : Option (Bool × List Char × List Char) :=
  let h : Bool × List Char := match ps with
    | '!' :: t => (true, t)
    | _ => (false, ps)
  match h.2 with
  | ']' :: t => (splitOnRB t).map (fun p => (h.1, ']' :: p.1, p.2))
  | q => (splitOnRB q).map (fun p => (h.1, p.1, p.2))

/-- Fuelled shell-glob matcher (`*`, `?`, `[seq]`, `[!seq]`) with full-string
semantics, as in `fnmatch` (its regex is anchored with a terminal match).
Each recursive call strictly decreases `patternLength + stringLength`, so the
fuel used by `globMatch` is always sufficient. -/
def globMatchF : Nat → List Char → List Char → Bool
  | 0, _, _ => false
  | _ + 1, [], s => s.isEmpty
  | fuel + 1, '*' :: ps, s =>
      globMatchF fuel ps s ||
        (match s with
         | [] => false
         | _ :: s2 => globMatchF fuel ('*' :: ps) s2)
  | fuel + 1, '?' :: ps, s =>
      (match s with
       | [] => false
       | _ :: s2 => globMatchF fuel ps s2)
  | fuel + 1, '[' :: ps, s =>
      (match parseCl ps with
       | none =>
          (match s with
           | '[' :: s2 => globMatchF fuel ps s2
           | _ => false)
       | some (neg, body, ps2) =>
          (match s with
           | c :: s2 => (inClass body c != neg) && globMatchF fuel ps2 s2
           | [] => false))
  | fuel + 1, p :: ps, s =>
      (match s with
       | c :: s2 => (p = c) && globMatchF fuel ps s2
       | [] => false)

/-- Python `fnmatch.fnmatch` on POSIX (where `os.path.normcase` is the identity). -/
def fnmatch (s pat : List Char) : Bool :=
  globMatchF (pat.length + s.length + 1) pat s

/-- The function `is_ignored` (source lines 130-136): does the lower-cased filename match
any of the patterns? -/
def is_ignored (filename : String) (ignored_patterns : List String) : Bool :=
  let filename_lower := pyLower filename
  ignored_patterns.any (fun pattern => fnmatch filename_lower.data pattern.data)

/-- Is a byte a UTF-8 continuation byte (`0x80-0xBF`)? -/
def contOk (b : Nat) : Bool := 0x80 ≤ b && b < 0xC0

/-- Strict UTF-8 decoding of a byte list to code points, as performed by
Python's `utf-8` codec with `errors='strict'`: rejects stray continuation
bytes, overlong forms, surrogates, and code points above `0x10FFFF`.
`none` models a raised `UnicodeDecodeError`. -/
def utf8Decode : List Nat → Option (List Nat)
  | [] => some []
  | b :: rest =>
    if b < 0x80 then
      (utf8Decode rest).map (b :: ·)
    else if b < 0xC2 then
      none
    else if b < 0xE0 then
      match rest with
      | c :: rest2 =>
        if contOk c then
          (utf8Decode rest2).map (((b - 0xC0) * 0x40 + (c - 0x80)) :: ·)
        else none
      | [] => none
    else if b < 0xF0 then
      match rest with
      | c :: d :: rest2 =>
        let cp := (b - 0xE0) * 0x1000 + (c - 0x80) * 0x40 + (d - 0x80)
        if contOk c && contOk d && 0x800 ≤ cp && ¬(0xD800 ≤ cp && cp < 0xE000)
        then (utf8Decode rest2).map (cp :: ·)
        else none
      | _ => none
    else if b < 0xF5 then
      match rest with
      | c :: d :: e :: rest2 =>
        let cp := (b - 0xF0) * 0x40000 + (c - 0x80) * 0x1000 +
                  (d - 0x80) * 0x40 + (e - 0x80)
        if contOk c && contOk d && contOk e && 0x10000 ≤ cp && cp < 0x110000
        then (utf8Decode rest2).map (cp :: ·)
        else none
      | _ => none
    else none

/-- Turn a list of code points into a `String`. -/
def strOfCodepoints (cps : List Nat) : String := ⟨cps.map Char.ofNat⟩

/-- Python's `latin-1` codec: every byte decodes to the character with the
same code point, so decoding is total (`errors='ignore'` never fires). -/
def latin1Decode (bs : List Nat) : String := ⟨bs.map Char.ofNat⟩

/-- What the environment does when the program opens and reads a file: either
the bytes are delivered, or reading raises (permissions, I/O error) with a
message. -/
inductive FileData where
  | bytes (bs : List Nat)
  | ioError (msg : String)
deriving DecidableEq, Repr

/-- Whether the `outfile.write` calls for this file's record succeed, or the
first of them raises (the `except Exception` arm at source line 248), after
which the best-effort error record is written. -/
inductive ProcOutcome where
  | ok
  | writeFail (msg : String)
deriving DecidableEq, Repr

/-- A directory entry for a regular file. -/
structure FileEnt where
  name : String
  data : FileData
  proc : ProcOutcome
deriving DecidableEq, Repr

/-- A directory tree: an interleaved list of file entries and named
subdirectories, in enumeration order. -/
inductive Dir where
  | empty
  | addFile (f : FileEnt) (rest : Dir)
  | addDir (name : String) (child : Dir) (rest : Dir)
deriving DecidableEq, Repr

/-- The files of a directory, in enumeration order (the `files` component of
an `os.walk` triple). -/
def filesOf : Dir → List FileEnt
  | .empty => []
  | .addFile f rest => f :: filesOf rest
  | .addDir _ _ rest => filesOf rest

/-- Relative paths (as segment lists) of every directory in the tree,
pruned or not; the root itself is `[]` and is not listed. -/
def dirPaths (rel : List String) : Dir → List (List String)
  | .empty => []
  | .addFile _ rest => dirPaths rel rest
  | .addDir n c rest =>
      (rel ++ [n]) :: (dirPaths (rel ++ [n]) c ++ dirPaths rel rest)

/-- The `os.walk(..., topdown=True)` traversal below a visited directory at
relative path `rel`, with the pruning of source line 171 applied: a
subdirectory whose name is in `ignored_folders` is removed from `dirs`
before descent, so its subtree is never visited.  Yields the `(relative
path, files)` triples of the visited descendants in walk order. -/
def osWalk (ignored_folders : List String) (rel : List String) :
    Dir → List (List String × List FileEnt)
  | .empty => []
  | .addFile _ rest => osWalk ignored_folders rel rest
  | .addDir n c rest =>
      (if n ∈ ignored_folders then []
       else (rel ++ [n], filesOf c) :: osWalk ignored_folders (rel ++ [n]) c)
      ++ osWalk ignored_folders rel rest

/-- The full walk from the root: the root's own triple (relative path `[]`)
followed by the pruned walk of its subtree. -/
def walkFrom (ignored_folders : List String) (d : Dir) :
    List (List String × List FileEnt) :=
  ([], filesOf d) :: osWalk ignored_folders [] d

/-- The file-reading block of `collect_code` (source lines 220-235): a strict
UTF-8 read; on `UnicodeDecodeError`, a `latin-1` re-read with
`errors='ignore'` (total, so the inner fallback handler of line 230 never
fires for decoding); on any other read error, the literal placeholder of
line 235. -/
def readContent : FileData → String
  | .bytes bs =>
      match utf8Decode bs with
      | some cps => strOfCodepoints cps
      | none => latin1Decode bs
  | .ioError msg => "[Error reading file: " ++ msg ++ "]"

/-- Python `"=" * 70`. -/
def sep70 : String := ⟨List.replicate 70 '='⟩

/-- The writes of source lines 238-245 for one normally processed file: two
separator-delimited header lines, the content, a newline when the content
does not already end with one, and one closing blank line. -/
def recordText (display content : String) : String :=
  sep70 ++ "\n" ++ ("File: " ++ display ++ "\n") ++ (sep70 ++ "\n") ++
    content ++ (if pyEndsWith content "\n" then "" else "\n") ++ "\n"

/-- The best-effort error record of source lines 251-254, written when the
normal record's writes raise unexpectedly. -/
def fallbackText (display msg : String) : String :=
  sep70 ++ "\n" ++ ("File: " ++ display ++ "\n") ++ (sep70 ++ "\n") ++
    ("[Unexpected error during processing: " ++ msg ++ "]\n\n")

/-- The run parameters of `collect_code`: the effective ignore sets, the
root's base name (`root_folder_name`), the absolute path of the root as
segments, and the absolute paths of the config file, the running script, and
the output file (source lines 205-211). -/
structure Config where
  ignoredFolders : List String
  ignoredPatterns : List String
  rootName : String
  absRoot : List String
  cfgPath : List String
  selfPath : List String
  outPath : List String
deriving DecidableEq, Repr

/-- Join path segments with forward slashes (the source normalises `os.sep`
to `/` at line 203). -/
def joinPath (segs : List String) : String := String.intercalate "/" segs

/-- The value `output_display_path` (source lines 193-203): the root folder's name is
prepended unless it is empty (filesystem root) or `"."`. -/
def displayPath (cfg : Config) (rel : List String) (filename : String) :
    String :=
  if cfg.rootName ≠ "" ∧ cfg.rootName ≠ "." then
    joinPath (cfg.rootName :: (rel ++ [filename]))
  else
    joinPath (rel ++ [filename])

/-- One block appended to the output stream for one file. -/
structure Record where
  displayPath : String
  relSegs : List String
  fileName : String
  absPath : List String
  content : String
  text : String
  counted : Bool
deriving DecidableEq, Repr

/-- The per-file body of the walk loop (source lines 187-256): skip the file
when its absolute path is the config file, the running script, or the output
file; skip it when `is_ignored` matches its base name; otherwise read its
content and emit a record.  When the record's writes succeed the collected
counter is incremented (`counted = true`); when they raise, the best-effort
error record is written and the counter is not incremented. -/
def processFile (cfg : Config) (rel : List String) (f : FileEnt) :
    Option Record :=
  let absPath := cfg.absRoot ++ rel ++ [f.name]
  if absPath = cfg.cfgPath ∨ absPath = cfg.selfPath ∨ absPath = cfg.outPath
  then none
  else if is_ignored f.name cfg.ignoredPatterns then none
  else
    let display := displayPath cfg rel f.name
    let content := readContent f.data
    match f.proc with
    | .ok => some
        { displayPath := display, relSegs := rel, fileName := f.name,
          absPath := absPath, content := content,
          text := recordText display content, counted := true }
    | .writeFail msg => some
        { displayPath := display, relSegs := rel, fileName := f.name,
          absPath := absPath, content := content,
          text := fallbackText display msg, counted := false }

/-- Processing of one `os.walk` triple (source lines 173-256): the defensive
secondary check of line 179 skips the files of a visited directory whose own
base name is in `ignored_folders`, unless it is the root itself.  With
`check = false` the check is removed and every visited triple's files are
processed. -/
def processTriple (cfg : Config) (check : Bool)
    (t : List String × List FileEnt) : List Record :=
  if check && (match t.1.getLast? with
               | some b => decide (b ∈ cfg.ignoredFolders)
               | none => false) then
    []
  else
    t.2.filterMap (processFile cfg t.1)

/-- All records emitted by the walk, in order. -/
def collectRecords (cfg : Config) (d : Dir) (check : Bool) : List Record :=
  ((walkFrom cfg.ignoredFolders d).map (processTriple cfg check)).flatten

/-- The function `collect_code` (source lines 138-270), observationally: the emitted
records, the final `collected_count`, and the text of the output stream. -/
def collect_code (cfg : Config) (d : Dir) : List Record × Nat × String :=
  let recs := collectRecords cfg d true
  (recs, (recs.filter (fun r => r.counted)).length,
   String.join (recs.map (fun r => r.text)))

/-- The variant of `collect_code` with the defensive secondary check of
source line 179 removed. -/
def collect_code_nocheck (cfg : Config) (d : Dir) :
    List Record × Nat × String :=
  let recs := collectRecords cfg d false
  (recs, (recs.filter (fun r => r.counted)).length,
   String.join (recs.map (fun r => r.text)))

/-! ## Helper lemmas -/

theorem pyCharLower_eq_rbracket {c : Char} (h : pyCharLower c = ']') :
    c = ']' := by
  unfold pyCharLower at h
  split at h
  case isTrue hc =>
    exfalso
    obtain ⟨ha, hb⟩ := hc
    have hv : (c.toNat + 32).isValidChar := Or.inl (by omega)
    have h93 : (']' : Char).toNat = 93 := by decide
    have h2 := congrArg Char.toNat h
    rw [h93, Char.ofNat, dif_pos hv] at h2
    simp only [Char.ofNatAux, Char.toNat, UInt32.toNat,
      BitVec.toNat_ofNatLt] at h2 ha hb
    omega
  case isFalse => exact h

/-- A string that does not end in `]` cannot lower-case to a header string
that ends in `]`. -/
theorem pyLower_ne_of_not_rbracket {l hdr : String}
    (hh : hdr.data.getLast? = some ']')
    (he : pyEndsWith l "]" = false) : pyLower l ≠ hdr := by
  intro heq
  have hd : l.data.map pyCharLower = hdr.data := congrArg String.data heq
  have hlast : Option.map pyCharLower l.data.getLast? = some ']' := by
    rw [← List.getLast?_map, hd, hh]
  obtain ⟨c, hc1, hc2⟩ := Option.map_eq_some'.mp hlast
  have hc : c = ']' := pyCharLower_eq_rbracket hc2
  subst hc
  obtain ⟨ys, hys⟩ := List.getLast?_eq_some_iff.mp hc1
  have : pyEndsWith l "]" = true := by
    unfold pyEndsWith
    rw [List.isSuffixOf_iff_suffix]
    show (']' :: []) <:+ l.data
    rw [hys]
    exact List.suffix_append ys [']']
  simp [this] at he

/-- Every triple yielded by the pruned walk below `rel` extends `rel` by a
nonempty suffix of segments none of which is an ignored folder name. -/
theorem osWalk_rel (ign : List String) (d : Dir) :
    ∀ (rel : List String) (t : List String × List FileEnt),
      t ∈ osWalk ign rel d →
      ∃ suf, t.1 = rel ++ suf ∧ suf ≠ [] ∧ ∀ s ∈ suf, s ∉ ign := by
  induction d with
  | empty => intro rel t ht; simp [osWalk] at ht
  | addFile f rest ih =>
      intro rel t ht
      exact ih rel t (by simpa [osWalk] using ht)
  | addDir n c rest ihc ihr =>
      intro rel t ht
      simp only [osWalk, List.mem_append] at ht
      rcases ht with ht | ht
      · by_cases hn : n ∈ ign
        · simp [hn] at ht
        · rw [if_neg hn] at ht
          rcases List.mem_cons.mp ht with rfl | ht
          · exact ⟨[n], rfl, by simp, by simpa using hn⟩
          · obtain ⟨suf, h1, h2, h3⟩ := ihc (rel ++ [n]) t ht
            refine ⟨n :: suf, by simpa using h1, by simp, ?_⟩
            intro s hs
            rcases List.mem_cons.mp hs with rfl | hs
            · exact hn
            · exact h3 s hs
      · exact ihr rel t ht

/-- Unpacking a successful `processFile`: the record remembers the file's
location and name, its absolute path differs from the three excluded paths,
its name matches no ignored pattern, and its text and counting depend on the
write outcome. -/
theorem processFile_inv {cfg : Config} {rel : List String} {f : FileEnt}
    {r : Record} (h : processFile cfg rel f = some r) :
    r.relSegs = rel ∧ r.fileName = f.name ∧
    r.absPath = cfg.absRoot ++ rel ++ [f.name] ∧
    r.absPath ≠ cfg.cfgPath ∧ r.absPath ≠ cfg.selfPath ∧
    r.absPath ≠ cfg.outPath ∧
    is_ignored f.name cfg.ignoredPatterns = false ∧
    r.displayPath = displayPath cfg rel f.name ∧
    r.content = readContent f.data ∧
    ((f.proc = .ok ∧ r.text = recordText r.displayPath r.content ∧
        r.counted = true) ∨
     (∃ msg, f.proc = .writeFail msg ∧
        r.text = fallbackText r.displayPath msg ∧ r.counted = false)) := by
  obtain ⟨fname, fdata, fproc⟩ := f
  unfold processFile at h
  by_cases h1 : cfg.absRoot ++ rel ++ [fname] = cfg.cfgPath ∨
      cfg.absRoot ++ rel ++ [fname] = cfg.selfPath ∨
      cfg.absRoot ++ rel ++ [fname] = cfg.outPath
  · rw [if_pos h1] at h; cases h
  · rw [if_neg h1] at h
    by_cases h2 : is_ignored fname cfg.ignoredPatterns = true
    · rw [if_pos h2] at h; cases h
    · rw [if_neg h2] at h
      push_neg at h1
      simp only [Bool.not_eq_true] at h2
      cases fproc with
      | ok =>
          cases h
          exact ⟨rfl, rfl, rfl, h1.1, h1.2.1, h1.2.2, h2,
            rfl, rfl, Or.inl ⟨rfl, rfl, rfl⟩⟩
      | writeFail msg =>
          cases h
          exact ⟨rfl, rfl, rfl, h1.1, h1.2.1, h1.2.2, h2,
            rfl, rfl, Or.inr ⟨msg, rfl, rfl, rfl⟩⟩

/-- Membership in the collector's record list comes from a walked triple and
a successful `processFile` on one of its files. -/
theorem mem_collectRecords {cfg : Config} {d : Dir} {check : Bool}
    {r : Record} (h : r ∈ collectRecords cfg d check) :
    ∃ t ∈ walkFrom cfg.ignoredFolders d,
      ∃ f ∈ t.2, processFile cfg t.1 f = some r := by
  simp only [collectRecords, List.mem_flatten, List.mem_map] at h
  obtain ⟨l, ⟨t, ht, rfl⟩, hr⟩ := h
  refine ⟨t, ht, ?_⟩
  unfold processTriple at hr
  split at hr
  · simp at hr
  · exact List.mem_filterMap.mp hr

/-! ## Claim theorems -/

/-- C1: for every folder name in the effective ignored-folder set and every
non-root directory of the tree whose base name equals that name, no file
anywhere beneath that directory (i.e. no record whose relative path extends
that directory's path) is emitted: pruning removes such directories before
descent, so their descendants are never visited. -/
theorem ignoredFolder_descendants_never_emitted
    (cfg : Config) (d : Dir) (p : List String) (b : String) (r : Record)
    (hp : p ∈ dirPaths [] d) (hlast : p.getLast? = some b)
    (hb : b ∈ cfg.ignoredFolders)
    (hr : r ∈ (collect_code cfg d).1) :
    ∀ suf, r.relSegs ≠ p ++ suf := by
  intro suf hdeq
  obtain ⟨t, ht, f, hf, hpf⟩ := mem_collectRecords hr
  have hrel : r.relSegs = t.1 := (processFile_inv hpf).1
  have hbp : b ∈ p := by
    obtain ⟨ys, hys⟩ := List.getLast?_eq_some_iff.mp hlast
    rw [hys]; simp
  have hbin : b ∈ t.1 := by
    rw [← hrel, hdeq]; exact List.mem_append_left suf hbp
  rcases List.mem_cons.mp ht with rfl | hwalk
  · simp at hbin
  · obtain ⟨suf2, h1, _, h3⟩ := osWalk_rel cfg.ignoredFolders d [] t hwalk
    rw [h1] at hbin
    exact h3 b (by simpa using hbin) hb

/-- C2: every emitted record's base filename matches no ignored pattern
under the case-insensitive glob test `is_ignored` (which is applied to the
base name only). -/
theorem emitted_record_matches_no_pattern
    (cfg : Config) (d : Dir) (r : Record)
    (hr : r ∈ (collect_code cfg d).1) :
    is_ignored r.fileName cfg.ignoredPatterns = false := by
  obtain ⟨t, ht, f, hf, hpf⟩ := mem_collectRecords hr
  have inv := processFile_inv hpf
  rw [inv.2.1]
  exact inv.2.2.2.2.2.2.1

/-- C3: no emitted record's absolute path is the output file, the
ignore-config file, or the running program's own file, for every
configuration (in particular regardless of the ignore rules). -/
theorem special_paths_never_emitted
    (cfg : Config) (d : Dir) (r : Record)
    (hr : r ∈ (collect_code cfg d).1) :
    r.absPath ≠ cfg.outPath ∧ r.absPath ≠ cfg.cfgPath ∧
      r.absPath ≠ cfg.selfPath := by
  obtain ⟨t, ht, f, hf, hpf⟩ := mem_collectRecords hr
  have inv := processFile_inv hpf
  exact ⟨inv.2.2.2.2.2.1, inv.2.2.2.1, inv.2.2.2.2.1⟩

/-- C9: removing the defensive secondary check of source line 179 changes
nothing: on every configuration and every tree the records, the count and
the output text are identical, because pruning already prevents the walk
from visiting a non-root directory whose base name is ignored. -/
theorem defensive_check_redundant (cfg : Config) (d : Dir) :
    collect_code cfg d = collect_code_nocheck cfg d := by
  have key : collectRecords cfg d true = collectRecords cfg d false := by
    unfold collectRecords
    congr 1
    apply List.map_congr_left
    intro t ht
    rcases List.mem_cons.mp ht with rfl | hwalk
    · rfl
    · obtain ⟨suf, h1, h2, h3⟩ := osWalk_rel cfg.ignoredFolders d [] t hwalk
      have hne : t.1 ≠ [] := by rw [h1]; simpa using h2
      obtain ⟨b, hb⟩ : ∃ b, t.1.getLast? = some b :=
        ⟨t.1.getLast hne, List.getLast?_eq_getLast t.1 hne⟩
      have hbmem : b ∈ t.1 := by
        obtain ⟨ys, hys⟩ := List.getLast?_eq_some_iff.mp hb
        rw [hys]; simp
      have hbnot : b ∉ cfg.ignoredFolders := by
        refine h3 _ ?_
        rw [h1] at hbmem; simpa using hbmem
      unfold processTriple
      rw [hb]
      simp [hbnot]
  unfold collect_code collect_code_nocheck
  rw [key]

/-! ## Concrete fixtures used by the witnesses -/

/-- A concrete run configuration for witnesses. -/
def cfgW : Config :=
  { ignoredFolders := ["build"], ignoredPatterns := ["*.log"],
    rootName := "proj", absRoot := ["home", "proj"],
    cfgPath := ["home", "proj", ".code_collector_ignore"],
    selfPath := ["home", "proj", "code-collector.py"],
    outPath := ["home", "proj", "collected_code.txt"] }

/-- A concrete tree: a collected file, a pattern-ignored file, the output
file, an ignored folder with a file beneath it, and a normal subfolder. -/
def dirW : Dir :=
  .addFile ⟨"a.py", .bytes [112, 10], .ok⟩
    (.addFile ⟨"b.log", .bytes [112], .ok⟩
      (.addFile ⟨"collected_code.txt", .bytes [], .ok⟩
        (.addDir "build" (.addFile ⟨"x.js", .bytes [113], .ok⟩ .empty)
          (.addDir "src" (.addFile ⟨"x.js", .bytes [113], .ok⟩ .empty)
            .empty))))

/-- The record `collect_code cfgW dirW` emits for `a.py`. -/
def recW : Record :=
  { displayPath := "proj/a.py", relSegs := [], fileName := "a.py",
    absPath := ["home", "proj", "a.py"], content := "p\n",
    text := recordText "proj/a.py" "p\n", counted := true }

set_option maxRecDepth 10000 in
theorem ignoredFolder_descendants_never_emitted_witness :
    ["build"] ∈ dirPaths [] dirW ∧
    ["build"].getLast? = some "build" ∧
    "build" ∈ cfgW.ignoredFolders ∧
    recW ∈ (collect_code cfgW dirW).1 ∧
    recW.relSegs ≠ ["build"] ++ ["x.js"] :=
  ⟨by decide, by decide, by decide, by decide,
   ignoredFolder_descendants_never_emitted cfgW dirW ["build"] "build" recW
     (by decide) (by decide) (by decide) (by decide) ["x.js"]⟩

set_option maxRecDepth 10000 in
theorem emitted_record_matches_no_pattern_witness :
    recW ∈ (collect_code cfgW dirW).1 ∧
    is_ignored recW.fileName cfgW.ignoredPatterns = false :=
  ⟨by decide,
   emitted_record_matches_no_pattern cfgW dirW recW (by decide)⟩

set_option maxRecDepth 10000 in
theorem special_paths_never_emitted_witness :
    recW ∈ (collect_code cfgW dirW).1 ∧
    (recW.absPath ≠ cfgW.outPath ∧ recW.absPath ≠ cfgW.cfgPath ∧
      recW.absPath ≠ cfgW.selfPath) :=
  ⟨by decide,
   special_paths_never_emitted cfgW dirW recW (by decide)⟩

theorem pyEndsWith_append_rbracket (s : String) :
    pyEndsWith (s ++ "]") "\n" = false := by
  unfold pyEndsWith
  rw [String.data_append]
  show ['\n'].isSuffixOf (s.data ++ [']']) = false
  simp [List.isSuffixOf, List.isPrefixOf, List.reverse_append]

/-- The best-effort error record has exactly the shape of a normal record
whose content is the bracketed error placeholder. -/
theorem fallbackText_eq_recordText (display msg : String) :
    fallbackText display msg =
      recordText display
        ("[Unexpected error during processing: " ++ msg ++ "]") := by
  unfold fallbackText recordText
  rw [pyEndsWith_append_rbracket]
  apply String.ext
  simp only [String.data_append, List.append_assoc, Bool.false_eq_true,
    if_false]
  rfl

/-- C5: every emitted record's text is exactly `recordText` applied to its
display path and its body, where the body is the record's content (the file's
content or a read-error placeholder) or, for a failed write, the
unexpected-error placeholder; and `recordText` is exactly: a line of 70 `=`
characters, a `File: <displayPath>` line, another line of 70 `=` characters,
the body, a newline added iff the body does not already end with one, and
exactly one additional blank line. -/
theorem record_format (cfg : Config) (d : Dir) (r : Record)
    (hr : r ∈ (collect_code cfg d).1) :
    sep70.data = List.replicate 70 '=' ∧
    (∀ display content : String,
      recordText display content =
        sep70 ++ "\n" ++ ("File: " ++ display ++ "\n") ++ (sep70 ++ "\n") ++
          content ++
          (if pyEndsWith content "\n" then "" else "\n") ++ "\n") ∧
    (r.text = recordText r.displayPath r.content ∨
      ∃ msg, r.text =
        recordText r.displayPath
          ("[Unexpected error during processing: " ++ msg ++ "]")) := by
  refine ⟨rfl, fun display content => rfl, ?_⟩
  obtain ⟨t, ht, f, hf, hpf⟩ := mem_collectRecords hr
  have inv := processFile_inv hpf
  rcases inv.2.2.2.2.2.2.2.2.2 with ⟨hok, htext, hcnt⟩ | ⟨msg, hwf, htext, hcnt⟩
  · exact Or.inl htext
  · refine Or.inr ⟨msg, ?_⟩
    rw [htext, fallbackText_eq_recordText]

/-- C6: a file whose bytes fail strict UTF-8 decoding is still emitted (with
the total latin-1 fallback decoding, which maps every byte to one character),
provided it is not skipped by the self/config/output check or a pattern. -/
theorem utf8_failure_still_collected
    (cfg : Config) (rel : List String) (name : String) (bs : List Nat)
    (hdec : utf8Decode bs = none)
    (hbytes : ∀ b ∈ bs, b < 256)
    (hsp : ¬(cfg.absRoot ++ rel ++ [name] = cfg.cfgPath ∨
             cfg.absRoot ++ rel ++ [name] = cfg.selfPath ∨
             cfg.absRoot ++ rel ++ [name] = cfg.outPath))
    (hpat : is_ignored name cfg.ignoredPatterns = false) :
    processFile cfg rel ⟨name, .bytes bs, .ok⟩ =
      some { displayPath := displayPath cfg rel name, relSegs := rel,
             fileName := name, absPath := cfg.absRoot ++ rel ++ [name],
             content := latin1Decode bs,
             text := recordText (displayPath cfg rel name) (latin1Decode bs),
             counted := true } ∧
    (latin1Decode bs).length = bs.length := by
  have hread : readContent (.bytes bs) = latin1Decode bs := by
    simp only [readContent]
    rw [hdec]
  constructor
  · unfold processFile
    rw [if_neg hsp, if_neg (by simp [hpat]), hread]
  · show (bs.map Char.ofNat).length = bs.length
    exact List.length_map bs Char.ofNat

set_option maxRecDepth 10000 in
theorem record_format_witness :
    recW ∈ (collect_code cfgW dirW).1 ∧
    (recW.text = recordText recW.displayPath recW.content ∨
      ∃ msg, recW.text =
        recordText recW.displayPath
          ("[Unexpected error during processing: " ++ msg ++ "]")) :=
  ⟨by decide, (record_format cfgW dirW recW (by decide)).2.2⟩

theorem utf8_failure_still_collected_witness :
    utf8Decode [255] = none ∧
    (processFile cfgW [] ⟨"data.bin", .bytes [255], .ok⟩ =
        some { displayPath := displayPath cfgW [] "data.bin",
               relSegs := [], fileName := "data.bin",
               absPath := cfgW.absRoot ++ [] ++ ["data.bin"],
               content := latin1Decode [255],
               text := recordText (displayPath cfgW [] "data.bin")
                         (latin1Decode [255]),
               counted := true } ∧
      (latin1Decode [255]).length = [255].length) :=
  ⟨by decide,
   utf8_failure_still_collected cfgW [] "data.bin" [255]
     (by decide) (by decide) (by decide) (by decide)⟩

/-- C4: loading a config whose lines are `[folders]`, `foo`, `[patterns]`,
`*.secret` yields the default folder set plus `foo` and the lower-cased
default pattern set plus `*.secret`; a missing config file yields the
defaults unchanged (patterns lower-cased). -/
theorem config_merge_example :
    load_ignore_config
        (.readOk ["[folders]", "foo", "[patterns]", "*.secret"])
        DEFAULT_IGNORED_FOLDERS DEFAULT_IGNORED_PATTERNS =
      .ok ("foo" :: DEFAULT_IGNORED_FOLDERS,
           "*.secret" :: DEFAULT_IGNORED_PATTERNS.map pyLower) ∧
    (∀ x : String, x ∈ "foo" :: DEFAULT_IGNORED_FOLDERS ↔
        x ∈ DEFAULT_IGNORED_FOLDERS ∨ x = "foo") ∧
    (∀ x : String, x ∈ "*.secret" :: DEFAULT_IGNORED_PATTERNS.map pyLower ↔
        x ∈ DEFAULT_IGNORED_PATTERNS.map pyLower ∨ x = "*.secret") ∧
    (∀ df dp : List String,
        load_ignore_config .absent df dp = .ok (df, dp.map pyLower)) := by
  refine ⟨rfl, ?_, ?_, fun df dp => rfl⟩
  · intro x
    simp only [List.mem_cons]
    tauto
  · intro x
    simp only [List.mem_cons]
    tauto

/-- C7 counterexample: a `UnicodeDecodeError` while reading the config file
(a non-UTF-8 config) is not caught by the `except IOError` clause, so
`load_ignore_config` raises to the caller instead of returning a result. -/
theorem load_ignore_config_decode_raises :
    (load_ignore_config
        (.readDecodeError [] "invalid continuation byte")
        DEFAULT_IGNORED_FOLDERS DEFAULT_IGNORED_PATTERNS).isOk = false := rfl

/-- C7 amended: for a missing config file and for any `IOError` while
reading it (discarding any partially merged lines), `load_ignore_config`
returns the untouched defaults without raising, and a successful read always
returns a result; only a decoding error propagates. -/
theorem load_ignore_config_io_safe (df dp seen lines : List String)
    (msg : String) :
    load_ignore_config (.readIOError seen msg) df dp =
      .ok (df, dp.map pyLower) ∧
    load_ignore_config .absent df dp = .ok (df, dp.map pyLower) ∧
    (load_ignore_config (.readOk lines) df dp).isOk = true :=
  ⟨rfl, rfl, rfl⟩

/-- A tree with a single file whose record writes raise unexpectedly, so
that only the best-effort error record reaches the output. -/
def dirWF : Dir :=
  .addFile ⟨"a.py", .bytes [112], .writeFail "disk full"⟩ .empty

/-- C8 counterexample: when a record's writes fail and the best-effort error
record is written instead, that record is present in the output but the
collected counter is not incremented, so the final count (0) differs from
the number of records present in the output (1). -/
theorem count_differs_from_records_counterexample :
    (collect_code cfgW dirWF).1.length = 1 ∧
    (collect_code cfgW dirWF).2.1 = 0 ∧
    (collect_code cfgW dirWF).2.2 ≠ "" := by
  refine ⟨by decide, by decide, by decide⟩

/-- Does every file in the tree have successful record writes? -/
def allOk : Dir → Bool
  | .empty => true
  | .addFile f rest => decide (f.proc = .ok) && allOk rest
  | .addDir _ c rest => allOk c && allOk rest

theorem filesOf_allOk {d : Dir} (h : allOk d = true) :
    ∀ f ∈ filesOf d, f.proc = .ok := by
  induction d with
  | empty => intro f hf; simp [filesOf] at hf
  | addFile g rest ih =>
      intro f hf
      simp only [allOk, Bool.and_eq_true, decide_eq_true_eq] at h
      rcases List.mem_cons.mp hf with rfl | hf
      · exact h.1
      · exact ih h.2 f hf
  | addDir n c rest ihc ihr =>
      intro f hf
      simp only [allOk, Bool.and_eq_true] at h
      exact ihr h.2 f hf

theorem osWalk_allOk {d : Dir} (ign : List String) (h : allOk d = true) :
    ∀ (rel : List String) (t : List String × List FileEnt),
      t ∈ osWalk ign rel d → ∀ f ∈ t.2, f.proc = .ok := by
  induction d with
  | empty => intro rel t ht; simp [osWalk] at ht
  | addFile g rest ih =>
      intro rel t ht
      simp only [allOk, Bool.and_eq_true] at h
      exact ih h.2 rel t (by simpa [osWalk] using ht)
  | addDir n c rest ihc ihr =>
      intro rel t ht
      simp only [allOk, Bool.and_eq_true] at h
      simp only [osWalk, List.mem_append] at ht
      rcases ht with ht | ht
      · by_cases hn : n ∈ ign
        · simp [hn] at ht
        · rw [if_neg hn] at ht
          rcases List.mem_cons.mp ht with rfl | ht
          · exact filesOf_allOk h.1
          · exact ihc h.1 (rel ++ [n]) t ht
      · exact ihr h.2 rel t ht

/-- C8 amended: the counter is incremented exactly once per record emitted
through the normal path (including records whose content is a read-error
placeholder); best-effort fallback error records are not counted.  Hence
when no write failure occurs, the final count equals the number of records
present in the output. -/
theorem count_equals_records_when_writes_succeed
    (cfg : Config) (d : Dir) (h : allOk d = true) :
    (collect_code cfg d).2.1 = (collect_code cfg d).1.length := by
  show ((collectRecords cfg d true).filter (fun r => r.counted)).length =
    (collectRecords cfg d true).length
  rw [List.filter_eq_self.mpr ?_]
  intro r hr
  obtain ⟨t, ht, f, hf, hpf⟩ := mem_collectRecords hr
  have hok : f.proc = .ok := by
    rcases List.mem_cons.mp ht with rfl | hwalk
    · exact filesOf_allOk h f hf
    · exact osWalk_allOk cfg.ignoredFolders h [] t hwalk f hf
  rcases (processFile_inv hpf).2.2.2.2.2.2.2.2.2 with ⟨_, _, hcnt⟩ |
    ⟨msg, hwf, _, _⟩
  · exact hcnt
  · rw [hok] at hwf; cases hwf

set_option maxRecDepth 10000 in
theorem count_equals_records_when_writes_succeed_witness :
    allOk dirW = true ∧
    (collect_code cfgW dirW).2.1 = (collect_code cfgW dirW).1.length :=
  ⟨by decide,
   count_equals_records_when_writes_succeed cfgW dirW (by decide)⟩

/-- C10: a stripped non-empty non-comment line that starts with `[` but does
not end with `]` is not treated as a section header (it cannot lower-case to
`[folders]` or `[patterns]` and fails the bracketed-line test), so it does
not reset the active section and is instead added verbatim to the folder set
or lower-cased into the pattern set, per the active section. -/
theorem bracket_line_without_close_is_added
    (line : String) (rest : List String) (fs ps : List String)
    (hne : pyStrip line ≠ "")
    (hcm : pyStartsWith (pyStrip line) "#" = false)
    (hlb : pyStartsWith (pyStrip line) "[" = true)
    (hrb : pyEndsWith (pyStrip line) "]" = false) :
    parseLines (line :: rest) (some .folders) fs ps =
      parseLines rest (some .folders) (pySetAdd fs (pyStrip line)) ps ∧
    parseLines (line :: rest) (some .patterns) fs ps =
      parseLines rest (some .patterns) fs
        (pySetAdd ps (pyLower (pyStrip line))) := by
  have hnf : pyLower (pyStrip line) ≠ "[folders]" :=
    pyLower_ne_of_not_rbracket (by decide) hrb
  have hnp : pyLower (pyStrip line) ≠ "[patterns]" :=
    pyLower_ne_of_not_rbracket (by decide) hrb
  have h1 : ¬(pyStrip line = "" ∨ pyStartsWith (pyStrip line) "#" = true) := by
    rintro (h | h)
    · exact hne h
    · rw [hcm] at h; cases h
  have h4 : ¬(pyStartsWith (pyStrip line) "[" = true ∧
      pyEndsWith (pyStrip line) "]" = true) := by
    rintro ⟨_, h⟩
    rw [hrb] at h; cases h
  constructor
  · simp only [parseLines]
    rw [if_neg h1, if_neg hnf, if_neg hnp, if_neg h4]
    simp
  · simp only [parseLines]
    rw [if_neg h1, if_neg hnf, if_neg hnp, if_neg h4]
    simp

theorem bracket_line_without_close_is_added_witness :
    pyStrip "[folders" ≠ "" ∧
    pyStartsWith (pyStrip "[folders") "[" = true ∧
    pyEndsWith (pyStrip "[folders") "]" = false ∧
    parseLines ["[folders"] (some .folders) [] [] =
      parseLines [] (some .folders) (pySetAdd [] "[folders") [] :=
  ⟨by decide, by decide, by decide,
   (bracket_line_without_close_is_added "[folders" [] [] []
     (by decide) (by decide) (by decide) (by decide)).1⟩

end CodeCollector
